import Mathlib

/-!
# Verification of the vervet version algebra, resolver, merger and compiler

A shallow embedding of the core of the `vervet` versioned-OpenAPI toolkit.
The version algebra (stability ladder, `(date, stability)` versions, parsing
and canonical rendering), the per-resource resolver, the document merger,
the multi-service collator and the compiler's build loop are modelled as
executable Lean definitions, and the specification's invariants and concrete
scenarios are proved against them.

The core library sources (`version.go`, `resource.go`, `merge.go`,
`include_headers.go`, the underground `storage` collator) are not present in
this source tree — only their tests and callers are — so those definitions
are modelled from the specification's own algorithm descriptions, as noted
in their doc comments.  `WithGeneratedComment` and the compiler's `Build`
are embedded from `util.go` and `internal/compiler/compiler.go` directly.
-/

set_option linter.unusedVariables false

namespace Vervet

/-- Modelled from the spec: release stability levels, an ordered enum
`wip < experimental < beta < ga` (§3). -/
inductive Stability where
  | wip
  | experimental
  | beta
  | ga
  deriving DecidableEq, Repr

/-- Numeric rank of a stability: `wip = 0 < experimental = 1 < beta = 2 < ga = 3`. -/
def Stability.idx : Stability → Nat
  | .wip => 0
  | .experimental => 1
  | .beta => 2
  | .ga => 3

/-- A calendar date `YYYY-MM-DD` (UTC).  Fields are unbounded naturals; the
well-formed range accepted by the version grammar is captured by
`Date.valid`. -/
structure Date where
  year : Nat
  month : Nat
  day : Nat
  deriving DecidableEq, Repr

/-- Dates expressible in the `YYYY-MM-DD` grammar of the spec (§6): a
four-digit year, month `01`–`12`, day `01`–`31`. -/
def Date.valid (d : Date) : Prop :=
  d.year ≤ 9999 ∧ 1 ≤ d.month ∧ d.month ≤ 12 ∧ 1 ≤ d.day ∧ d.day ≤ 31

/-- Strict lexicographic order on dates: by year, then month, then day. -/
def Date.ltb (a b : Date) : Bool :=
  decide (a.year < b.year) ||
    (decide (a.year = b.year) &&
      (decide (a.month < b.month) ||
        (decide (a.month = b.month) && decide (a.day < b.day))))

/-- Non-strict lexicographic order on dates. -/
def Date.leb (a b : Date) : Bool :=
  Date.ltb a b || decide (a = b)

/-- Modelled from the spec: a version is the pair `(Date, Stability)` (§3). -/
structure Version where
  date : Date
  stability : Stability
  deriving DecidableEq, Repr

/-- Modelled from the spec: strict total order on versions — first by date
ascending, then by stability ascending (§3). -/
def Version.ltb (a b : Version) : Bool :=
  Date.ltb a.date b.date ||
    (decide (a.date = b.date) && decide (a.stability.idx < b.stability.idx))

/-- Non-strict version order. -/
def Version.leb (a b : Version) : Bool :=
  Version.ltb a b || decide (a = b)

/-! ## Version grammar: parsing and canonical rendering -/

/-- The decimal digit character for `n < 10` (and `'0'` out of range). -/
def digitChar : Nat → Char
  | 0 => '0'
  | 1 => '1'
  | 2 => '2'
  | 3 => '3'
  | 4 => '4'
  | 5 => '5'
  | 6 => '6'
  | 7 => '7'
  | 8 => '8'
  | 9 => '9'
  | _ => '0'

/-- The value of a decimal digit character, `none` for non-digits. -/
def digitVal (c : Char) : Option Nat :=
  if c = '0' then some 0
  else if c = '1' then some 1
  else if c = '2' then some 2
  else if c = '3' then some 3
  else if c = '4' then some 4
  else if c = '5' then some 5
  else if c = '6' then some 6
  else if c = '7' then some 7
  else if c = '8' then some 8
  else if c = '9' then some 9
  else none

/-- Modelled from the spec: the literal name of a stability level, as it
appears in the version grammar (§3, §6). -/
def Stability.name : Stability → List Char
  | .wip => ['w', 'i', 'p']
  | .experimental => ['e', 'x', 'p', 'e', 'r', 'i', 'm', 'e', 'n', 't', 'a', 'l']
  | .beta => ['b', 'e', 't', 'a']
  | .ga => ['g', 'a']

/-- Modelled from the spec: parse a stability token.  Accepts the literal
names plus `work-in-progress` as an alias for `wip` (§3). -/
def parseStabilityChars : List Char → Option Stability
  | ['w', 'i', 'p'] => some .wip
  | ['w', 'o', 'r', 'k', '-', 'i', 'n', '-',
     'p', 'r', 'o', 'g', 'r', 'e', 's', 's'] => some .wip
  | ['e', 'x', 'p', 'e', 'r', 'i', 'm', 'e', 'n', 't', 'a', 'l'] => some .experimental
  | ['b', 'e', 't', 'a'] => some .beta
  | ['g', 'a'] => some .ga
  | _ => none

/-- The optional stability suffix after the date: absent means `ga`;
`~<stability>` otherwise; anything else is rejected. -/
def parseSuffix (year month day : Nat) : List Char → Option Version
  | [] => some ⟨⟨year, month, day⟩, .ga⟩
  | '~' :: stab => (parseStabilityChars stab).map fun s => ⟨⟨year, month, day⟩, s⟩
  | _ => none

/-- Modelled from the spec: `ParseVersion` over the grammar
`YYYY-MM-DD` optionally followed by `~<stability>`; an absent stability
defaults to `ga`; malformed dates and unknown stabilities are rejected
(§3, §4.1, §6). -/
def parseVersionChars : List Char → Option Version
  | y1 :: y2 :: y3 :: y4 :: '-' :: m1 :: m2 :: '-' :: d1 :: d2 :: rest => do
    let a ← digitVal y1
    let b ← digitVal y2
    let c ← digitVal y3
    let d ← digitVal y4
    let e ← digitVal m1
    let f ← digitVal m2
    let g ← digitVal d1
    let h ← digitVal d2
    let month := e * 10 + f
    let day := g * 10 + h
    if 1 ≤ month ∧ month ≤ 12 ∧ 1 ≤ day ∧ day ≤ 31 then
      parseSuffix (a * 1000 + b * 100 + c * 10 + d) month day rest
    else
      none
  | _ => none

/-- Parsing on strings (`ParseVersion`). -/
def parseVersion (s : String) : Option Version :=
  parseVersionChars s.data

/-- The ten characters `YYYY-MM-DD` of a date's canonical form. -/
def canonicalDateChars (d : Date) : List Char :=
  [digitChar (d.year / 1000 % 10), digitChar (d.year / 100 % 10),
   digitChar (d.year / 10 % 10), digitChar (d.year % 10), '-',
   digitChar (d.month / 10 % 10), digitChar (d.month % 10), '-',
   digitChar (d.day / 10 % 10), digitChar (d.day % 10)]

/-- The canonical stability suffix: elided for `ga`, `~<stab>` otherwise. -/
def canonicalSuffix : Stability → List Char
  | .ga => []
  | s => '~' :: s.name

/-- Modelled from the spec: `Canonical()` — for `ga` the stability suffix is
elided; otherwise `YYYY-MM-DD~<stab>` (§4.1). -/
def canonicalChars (v : Version) : List Char :=
  canonicalDateChars v.date ++ canonicalSuffix v.stability

/-- Canonical rendering on strings. -/
def canonicalString (v : Version) : String :=
  ⟨canonicalChars v⟩

/-! ## Version resolution -/

/-- Modelled from the spec: the resolver's filter — a version `v` is a
candidate for query `q` iff `v.Date ≤ q.Date` and `v.Stability ≥
q.Stability` (§4.1).  This is the "stability ladder": a `ga` query matches
only ga, `beta` matches beta or ga, `experimental` matches experimental,
beta or ga. -/
def versionMatchb (q v : Version) : Bool :=
  Date.leb v.date q.date && decide (q.stability.idx ≤ v.stability.idx)

/-- One step of the maximum scan over candidate versions. -/
def maxVersionStep (acc : Option Version) (v : Version) : Option Version :=
  match acc with
  | none => some v
  | some w => if Version.ltb w v then some v else some w

/-- Modelled from the spec: `Resolve(query, available)` — filter `available`
for `V.Date ≤ query.Date AND V.Stability ≥ query.Stability`, then pick the
max by `(Date, Stability)`; `none` models `ErrNoMatchingVersion` (§4.1). -/
def resolve (q : Version) (available : List Version) : Option Version :=
  ((available.filter (versionMatchb q)).foldl maxVersionStep none)

/-- The sentinel error message of the resolver (§4.1, test
`TestVersionRangesProjects`). -/
def errNoMatchingVersion : String := "no matching version"

/-- Modelled from the spec: `ResourceVersions.At(queryVersion)` resolves
this resource's versions with the C1 resolver, restricted to the stability
ladder, and fails with `ErrNoMatchingVersion` when nothing matches (§4.6).
Only the version timeline matters for resolution, so the resource is
modelled by its version list. -/
def resourceVersionsAt (versions : List Version) (q : Version) :
    Except String Version :=
  match resolve q versions with
  | some v => .ok v
  | none => .error errNoMatchingVersion

/-- The stability ladder as the spec words it (§4.6): a `ga` query matches
only ga; a `beta` query matches beta or ga; an `experimental` query matches
any released stability (experimental, beta or ga).  The spec's wording does
not cover `wip` queries; the resolver's filter lets them match anything. -/
def ladderMatches : Stability → Stability → Prop
  | .ga, v => v = .ga
  | .beta, v => v = .beta ∨ v = .ga
  | .experimental, v => v = .experimental ∨ v = .beta ∨ v = .ga
  | .wip, _ => True

/-- S1 fixture: the `hello-world` resource's version timeline
(`testdata/resources/_examples/hello-world`). -/
def helloWorldVersions : List Version :=
  [⟨⟨2021, 6, 1⟩, .ga⟩, ⟨⟨2021, 6, 7⟩, .ga⟩, ⟨⟨2021, 6, 13⟩, .beta⟩]

/-- S2 fixture: the `projects` resource's single version
(`testdata/resources/projects`). -/
def projectsVersions : List Version :=
  [⟨⟨2021, 6, 4⟩, .experimental⟩]

/-! ## HeaderIncluder -/

/-- A response header; only its schema's type matters to the claims. -/
structure Header where
  schemaType : String
  deriving DecidableEq, Repr

/-- A response: its `headers` mapping (an association list in document
order) and, when the response carries `x-snyk-include-headers`, the header
mapping the extension's `$ref` resolves to. -/
structure Response where
  headers : List (String × Header)
  includeHeadersExt : Option (List (String × Header))
  deriving DecidableEq, Repr

/-- First-match lookup in a headers mapping. -/
def lookupHeader : List (String × Header) → String → Option Header
  | [], _ => none
  | p :: rest, n => if p.1 = n then some p.2 else lookupHeader rest n

/-- Modelled from the spec: expand one response's `x-snyk-include-headers`
extension — add each referenced header to the response's `headers` mapping,
skipping names already explicitly defined (explicit wins), and remove the
extension (§4.5). -/
def expandResponse (r : Response) : Response :=
  match r.includeHeadersExt with
  | none => r
  | some m =>
    { headers := r.headers ++ m.filter fun p => (lookupHeader r.headers p.1).isNone
      includeHeadersExt := none }

/-- Modelled from the spec: `IncludeHeaders` scans every response of the
document and expands its extension (§4.5).  A document is modelled by its
list of responses. -/
def includeHeaders (doc : List Response) : List Response :=
  doc.map expandResponse

/-- The S3 fixture's included headers: the three common Snyk response
headers, each with a string-typed schema
(`testdata/resources/include.yaml`). -/
def s3IncludedHeaders : List (String × Header) :=
  [("snyk-version-requested", ⟨"string"⟩),
   ("snyk-version-served", ⟨"string"⟩),
   ("snyk-request-id", ⟨"string"⟩)]

/-- The S3 fixture document: one response with no explicit headers whose
`x-snyk-include-headers` references the three common headers
(`testdata/resources/_examples/hello-world/2021-06-13/spec.yaml`). -/
def s3Document : List Response :=
  [⟨[], some s3IncludedHeaders⟩]

/-! ## Documents and the merger -/

/-- An OpenAPI document, reduced to what the merge claims observe: its
`paths` mapping (path → operation content, kept opaque as a string, in
document order) and its top-level `servers` field, `none` when absent. -/
structure Doc where
  paths : List (String × String)
  servers : Option (List String)
  deriving DecidableEq, Repr

/-- First-match lookup in a paths mapping. -/
def lookupPath : List (String × String) → String → Option String
  | [], _ => none
  | p :: rest, n => if p.1 = n then some p.2 else lookupPath rest n

/-- Replace the value at the first occurrence of a key. -/
def setPath : List (String × String) → String → String → List (String × String)
  | [], _, _ => []
  | p :: rest, n, v => if p.1 = n then (n, v) :: rest else p :: setPath rest n v

/-- JSON-pointer escaping of a path segment: `~` becomes `~0` and `/`
becomes `~1`. -/
def escapePointer (s : String) : String :=
  ⟨s.data.flatMap fun c =>
    if c = '~' then ['~', '0'] else if c = '/' then ['~', '1'] else [c]⟩

/-- Modelled from the spec: merge one source path entry into the target's
paths.  A path missing in the target is inserted; a path present with a
structurally identical operation is kept; a differing operation is
overwritten when `replace` is set and otherwise a conflict at that path is
raised (§4.4, reconciled with §8.5's idempotence: an entry identical to the
target's is a no-op, only structurally differing entries conflict).  The
error carries the conflicting path; callers render it as a JSON pointer
(`SpecVersions.At`) or prefix it with `conflict in #/paths ` (the
collator). -/
def insertPathEntry (replace : Bool) (t : List (String × String))
    (e : String × String) : Except String (List (String × String)) :=
  match lookupPath t e.1 with
  | none => .ok (t ++ [e])
  | some c =>
    if c = e.2 then .ok t
    else if replace then .ok (setPath t e.1 e.2)
    else .error e.1

/-- Merge every source path entry into the target, left to right. -/
def mergePathList (replace : Bool) :
    List (String × String) → List (String × String) →
      Except String (List (String × String))
  | t, [] => .ok t
  | t, e :: rest =>
    match insertPathEntry replace t e with
    | .ok t' => mergePathList replace t' rest
    | .error p => .error p

/-- Modelled from the spec: merge of a top-level field — `replace = true`
overwrites, `replace = false` keeps the target's value when both are
present; an absent side contributes nothing (§4.4). -/
def mergeTopLevel (replace : Bool) :
    Option (List String) → Option (List String) → Option (List String)
  | none, s => s
  | some tv, none => some tv
  | some tv, some sv => if replace then some sv else some tv

/-- Modelled from the spec: `Merge(target, source, replace)` deep-merges
`source` into `target` (§4.4), restricted to the fields of the model. -/
def mergeDoc (t s : Doc) (replace : Bool) : Except String Doc :=
  match mergePathList replace t.paths s.paths with
  | .error p => .error p
  | .ok ps => .ok ⟨ps, mergeTopLevel replace t.servers s.servers⟩

/-! ## SpecVersions and the collator -/

/-- A merge conflict: the JSON pointer of the first differing location and
the contributing sources (§7). -/
structure ConflictError where
  pointer : String
  sources : List String
  deriving DecidableEq, Repr

/-- The outcome of `SpecVersions.At`: either the aggregate's path table —
`(path, operation content, contributing resource)` entries — or a failure. -/
inductive SpecError where
  | noMatchingVersion
  | conflict (e : ConflictError)
  deriving DecidableEq, Repr

/-- A path table entry: path, operation content, and the name of the source
that contributed it. -/
structure PathEntry where
  path : String
  content : String
  source : String
  deriving DecidableEq, Repr

/-- First-match lookup in a provenance-tracking path table. -/
def lookupEntry : List PathEntry → String → Option PathEntry
  | [], _ => none
  | p :: rest, n => if p.path = n then some p else lookupEntry rest n

/-- Modelled from the spec: insert one contributed path into the aggregate
table — insert when missing, keep when identical, and fail with a
`ConflictError` naming `#/paths/<escaped path>` and both contributing
sources when the operation bodies differ (§4.7, S4). -/
def insertEntry (src : String) (t : List PathEntry) (e : String × String) :
    Except ConflictError (List PathEntry) :=
  match lookupEntry t e.1 with
  | none => .ok (t ++ [⟨e.1, e.2, src⟩])
  | some prev =>
    if prev.content = e.2 then .ok t
    else .error ⟨"#/paths/" ++ escapePointer e.1, [prev.source, src]⟩

/-- Merge one source document's paths into the aggregate table. -/
def insertDoc (src : String) :
    List PathEntry → List (String × String) →
      Except ConflictError (List PathEntry)
  | t, [] => .ok t
  | t, e :: rest =>
    match insertEntry src t e with
    | .ok t' => insertDoc src t' rest
    | .error c => .error c

/-- One resource of a SpecVersions set: its name and its timeline of
versioned documents. -/
structure ResourceV where
  name : String
  versions : List (Version × Doc)
  deriving DecidableEq, Repr

/-- One step of the maximum scan over candidate (version, document)
pairs. -/
def maxPairStep (acc : Option (Version × Doc)) (p : Version × Doc) :
    Option (Version × Doc) :=
  match acc with
  | none => some p
  | some w => if Version.ltb w.1 p.1 then some p else some w

/-- The C1 resolver over a resource's (version, document) timeline. -/
def resolveDoc (q : Version) (l : List (Version × Doc)) :
    Option (Version × Doc) :=
  (l.filter fun p => versionMatchb q p.1).foldl maxPairStep none

/-- Modelled from the spec: `SpecVersions.At(version)` — for each resource
resolve its document at the query (skipping resources with no matching
version), merge the resolved documents' paths into one aggregate with
`replace = false`, failing on the first conflict; when no resource matches
at all the result is `ErrNoMatchingVersion` (§4.7). -/
def specVersionsAt (rs : List ResourceV) (q : Version) :
    Except SpecError (List PathEntry) :=
  let matched := rs.filterMap fun r =>
    (resolveDoc q r.versions).map fun p => (r.name, p.2)
  match matched with
  | [] => .error .noMatchingVersion
  | _ =>
    matched.foldlM (fun t rd =>
      match insertDoc rd.1 t rd.2.paths with
      | .ok t' => pure t'
      | .error c => .error (SpecError.conflict c)) []

/-- A revision published by one service: its version and the parsed
document (the blob). -/
structure ContentRevision where
  version : Version
  doc : Doc
  deriving DecidableEq, Repr

/-- Insert a version into a sorted, duplicate-free list. -/
def insertVersionSorted (v : Version) : List Version → List Version
  | [] => [v]
  | w :: rest =>
    if v = w then w :: rest
    else if Version.ltb v w then v :: w :: rest
    else w :: insertVersionSorted v rest

/-- The sorted, de-duplicated union of a list of versions. -/
def sortedVersionUnion (l : List Version) : List Version :=
  l.foldr insertVersionSorted []

/-- Modelled from the spec: the collator's per-version merge — for each
service resolve its revisions at the version (skipping services with none),
and merge the documents' paths, failing on a conflict with an error naming
`#/paths` and the conflicting path (§4.8, `TestCollator_Collate_Conflict`). -/
def collateAt (services : List (String × List ContentRevision)) (q : Version) :
    Except String Doc :=
  services.foldlM (fun d sv =>
    match resolveDoc q (sv.2.map fun r => (r.version, r.doc)) with
    | none => pure d
    | some p =>
      match mergeDoc d p.2 false with
      | .ok d' => pure d'
      | .error ptr => .error ("conflict in #/paths " ++ ptr)) ⟨[], none⟩

/-- The collator's conflict message carries the bare path, not the escaped
pointer (`conflict in #/paths /examples/hello-world`). -/
def collateConflictMessage (path : String) : String :=
  "conflict in #/paths " ++ path

/-- Modelled from the spec: `Collate` — compute the sorted union of all
services' revision versions and, for each, the merged aggregate document of
every service's revision resolved at that version (§4.8). -/
def collate (services : List (String × List ContentRevision)) :
    Except String (List Version × List (Version × Doc)) :=
  let versions := sortedVersionUnion
    (services.flatMap fun sv => sv.2.map (·.version))
  let step : List (Version × Doc) → Version → Except String (List (Version × Doc)) :=
    fun acc v =>
      match collateAt services v with
      | .ok d => .ok (acc ++ [(v, d)])
      | .error e => .error e
  (versions.foldlM step []).map fun specs => (versions, specs)

/-- S5 fixture: `service-a`'s document, providing `/test`. -/
def docTest : Doc := ⟨[("/test", "getTest")], none⟩

/-- S5 fixture: `service-b`'s document, providing `/example`. -/
def docExample : Doc := ⟨[("/example", "postExample")], none⟩

/-- S5 fixture: `service-a` publishes `/test` at `2022-02-01~beta` (and
again at `2022-03-01`), `service-b` publishes `/example` at `2022-04-01`
(`TestCollator_Collate`). -/
def s5Services : List (String × List ContentRevision) :=
  [("service-a", [⟨⟨⟨2022, 2, 1⟩, .beta⟩, docTest⟩,
                  ⟨⟨⟨2022, 3, 1⟩, .ga⟩, docTest⟩]),
   ("service-b", [⟨⟨⟨2022, 4, 1⟩, .ga⟩, docExample⟩])]

/-- Conflict fixture: two services contribute the same path with different
operation bodies at `2021-06-15` (`TestCollator_Collate_Conflict`). -/
def conflictServices : List (String × List ContentRevision) :=
  [("service-a",
    [⟨⟨⟨2021, 6, 15⟩, .ga⟩, ⟨[("/examples/hello-world", "opA")], none⟩⟩]),
   ("service-b",
    [⟨⟨⟨2021, 6, 15⟩, .ga⟩, ⟨[("/examples/hello-world", "opB")], none⟩⟩])]

/-! ## The compiler's build -/

/-- Embedded from `util.go` (`WithGeneratedComment`): prepend the
generated-file comment line to a YAML buffer. -/
def withGeneratedComment (yamlBuf : String) : String :=
  "# OpenAPI spec generated by vervet, DO NOT EDIT\n" ++ yamlBuf

/-- A file system: files as `(path, contents)` pairs and the set of
directories; a path lies under a directory when the directory is a prefix
of it. -/
structure FS where
  files : List (String × String)
  dirs : List String
  deriving DecidableEq, Repr

/-- Path prefix test, on the underlying character lists. -/
def isPathPrefix (root p : String) : Bool :=
  root.data.isPrefixOf p.data

/-- Model of `os.RemoveAll`: drop every file and directory at or under a path. -/
def removeAll (fs : FS) (p : String) : FS :=
  ⟨fs.files.filter fun f => !(isPathPrefix p f.1),
   fs.dirs.filter fun d => !(isPathPrefix p d)⟩

/-- Model of `os.MkdirAll`: record a directory. -/
def mkdirAll (fs : FS) (p : String) : FS :=
  ⟨fs.files, fs.dirs ++ [p]⟩

/-- Apply one overlay with `replace = true`; the replacing merge cannot
fail (compiler.go:301–307, `vervet.Merge(spec, doc, true)`). -/
def applyOverlay (t s : Doc) : Doc :=
  match mergeDoc t s true with
  | .ok d => d
  | .error _ => t

/-- Apply every configured overlay in order. -/
def applyOverlays (overlays : List Doc) (d : Doc) : Doc :=
  overlays.foldl applyOverlay d

/-- Keep the first occurrence of each date, preserving order
(`vervet.VersionDateStrings`). -/
def dedupDatesKeepOrder (l : List Date) : List Date :=
  l.foldl (fun acc d => if d ∈ acc then acc else acc ++ [d]) []

/-- The candidate versions `Compiler.Build` iterates: every distinct
version date of the loaded spec versions, in sorted order, with the
stability suffixes `~experimental`, `~beta` and none, in that order
(compiler.go:280–288). -/
def buildStepsOf (rs : List ResourceV) : List Version :=
  (dedupDatesKeepOrder
    ((sortedVersionUnion (rs.flatMap fun r => r.versions.map (·.1))).map
      (·.date))).flatMap
    fun d => [⟨d, .experimental⟩, ⟨d, .beta⟩, ⟨d, .ga⟩]

/-- Embedded from `Compiler.Build`'s version loop (compiler.go:283–335),
writes only: for each candidate version, skip it on `ErrNoMatchingVersion`,
stop at a conflict, and otherwise apply the overlays with `replace = true`
and write `spec.json` and `spec.yaml`, the YAML body prefixed with the
generated comment.  `render` abstracts `ToSpecJSON` and `toYaml` the
JSON→YAML conversion (both out of the core's scope, §1).  The writes are
returned as (path, contents) pairs in order. -/
def buildWrites (render : Doc → String) (toYaml : String → String)
    (rs : List ResourceV) (overlays : List Doc) (out : String) :
    List Version → List (String × String)
  | [] => []
  | v :: rest =>
    match specVersionsAt rs v with
    | .error .noMatchingVersion => buildWrites render toYaml rs overlays out rest
    | .error (.conflict _) => []
    | .ok table =>
      let doc := applyOverlays overlays
        ⟨table.map fun e => (e.path, e.content), none⟩
      (out ++ "/" ++ canonicalString v ++ "/spec.json", render doc) ::
        (out ++ "/" ++ canonicalString v ++ "/spec.yaml",
          withGeneratedComment (toYaml (render doc))) ::
        buildWrites render toYaml rs overlays out rest

/-- The version directories the loop creates: one per candidate version, up
to and including the version a conflict stops at (`os.MkdirAll` runs before
`specVersions.At`, compiler.go:289–294). -/
def buildDirs (rs : List ResourceV) (out : String) :
    List Version → List String
  | [] => []
  | v :: rest =>
    match specVersionsAt rs v with
    | .error (.conflict _) => [out ++ "/" ++ canonicalString v]
    | _ => (out ++ "/" ++ canonicalString v) :: buildDirs rs out rest

/-- The loop's outcome: `ErrNoMatchingVersion` is skipped, a conflict
aborts the build with its pointer (compiler.go:294–298). -/
def buildResult (rs : List ResourceV) : List Version → Except String Unit
  | [] => .ok ()
  | v :: rest =>
    match specVersionsAt rs v with
    | .error .noMatchingVersion => buildResult rs rest
    | .error (.conflict c) => .error c.pointer
    | .ok _ => buildResult rs rest

/-- The API configuration `Build` works from: the output path (empty when
no output is configured), the result of loading the resource spec versions,
and the overlays.  The compiler's loop over several resource sets is
modelled with one. -/
structure ApiConfig where
  outputPath : String
  loadResult : Except String (List ResourceV)
  overlays : List Doc

/-- Embedded from `Compiler.Build` (compiler.go:254–338): without an output
path nothing happens; otherwise the output directory is removed recursively
and recreated, then the spec versions are loaded and every candidate
version compiled and written.  Returns the resulting file system and the
outcome. -/
def build (render : Doc → String) (toYaml : String → String)
    (api : ApiConfig) (fs : FS) : FS × Except String Unit :=
  if api.outputPath = "" then (fs, .ok ())
  else
    let fs1 := mkdirAll (removeAll fs api.outputPath) api.outputPath
    match api.loadResult with
    | .error e => (fs1, .error e)
    | .ok rs =>
      (⟨fs1.files ++
          buildWrites render toYaml rs api.overlays api.outputPath
            (buildStepsOf rs),
        fs1.dirs ++ buildDirs rs api.outputPath (buildStepsOf rs)⟩,
       buildResult rs (buildStepsOf rs))

/-- A placeholder JSON renderer used to instantiate the build theorems. -/
def mockRender : Doc → String := fun _ => "J"

/-- A placeholder JSON→YAML conversion used to instantiate the build
theorems. -/
def mockToYaml : String → String := fun s => s

/-- A one-resource fixture for instantiating the build theorems. -/
def mockResources : List ResourceV :=
  [⟨"hello", [(⟨⟨2021, 6, 1⟩, .ga⟩, ⟨[("/a", "opA")], none⟩)]⟩]

/-- A pre-existing compiled output for the C10 witness. -/
def staleOutputFs : FS :=
  ⟨[("out/2021-06-01/spec.json", "old")], ["out", "out/2021-06-01"]⟩

/-- An API whose resource load fails, for the C10 witness. -/
def failingLoadApi : ApiConfig := ⟨"out", .error "load failed", []⟩

/-! ## Theorems -/

theorem Stability.idx_inj : ∀ {a b : Stability}, a.idx = b.idx → a = b := by
  intro a b
  cases a <;> cases b <;> simp [Stability.idx]

theorem Date.ltb_lex_iff {a b : Date} :
    Date.ltb a b = true ↔
      a.year < b.year ∨ (a.year = b.year ∧
        (a.month < b.month ∨ (a.month = b.month ∧ a.day < b.day))) := by
  simp [Date.ltb]

theorem Date.leb_lex_iff {a b : Date} :
    Date.leb a b = true ↔ Date.ltb a b = true ∨ a = b := by
  simp [Date.leb]

theorem Date.eq_fields_iff {a b : Date} :
    a = b ↔ a.year = b.year ∧ a.month = b.month ∧ a.day = b.day := by
  cases a
  cases b
  simp

theorem Version.eq_iff {a b : Version} :
    a = b ↔ a.date = b.date ∧ a.stability = b.stability := by
  cases a
  cases b
  simp

/-- Arithmetic characterization of the strict version order. -/
theorem Version.ltb_iff {a b : Version} :
    Version.ltb a b = true ↔
      a.date.year < b.date.year ∨ (a.date.year = b.date.year ∧
        (a.date.month < b.date.month ∨ (a.date.month = b.date.month ∧
          (a.date.day < b.date.day ∨ (a.date.day = b.date.day ∧
            a.stability.idx < b.stability.idx))))) := by
  simp only [Version.ltb, Date.ltb, Date.eq_fields_iff, Bool.or_eq_true,
    Bool.and_eq_true, decide_eq_true_eq]
  omega

/-- Arithmetic characterization of the non-strict version order. -/
theorem Version.leb_iff {a b : Version} :
    Version.leb a b = true ↔
      a.date.year < b.date.year ∨ (a.date.year = b.date.year ∧
        (a.date.month < b.date.month ∨ (a.date.month = b.date.month ∧
          (a.date.day < b.date.day ∨ (a.date.day = b.date.day ∧
            a.stability.idx ≤ b.stability.idx))))) := by
  simp only [Version.leb, Bool.or_eq_true, Version.ltb_iff, decide_eq_true_eq]
  constructor
  · rintro (h | rfl)
    · omega
    · omega
  · intro h
    by_cases hi : a.stability.idx = b.stability.idx
    · by_cases hd : a.date = b.date
      · right
        rw [Version.eq_iff]
        exact ⟨hd, Stability.idx_inj hi⟩
      · rw [Date.eq_fields_iff] at hd
        left
        omega
    · left
      omega

/-- The strict order is the complement of the reversed non-strict order. -/
theorem Version.ltb_eq_false_iff {a b : Version} :
    Version.ltb a b = false ↔ Version.leb b a = true := by
  rw [Version.leb_iff, ← Bool.not_eq_true, Version.ltb_iff]
  omega

/-- Totality of the version order: any two versions are comparable. -/
theorem Version.leb_total (a b : Version) :
    Version.leb a b = true ∨ Version.leb b a = true := by
  rw [Version.leb_iff, Version.leb_iff]
  omega

/-- Transitivity of the non-strict version order. -/
theorem Version.leb_trans {a b c : Version}
    (hab : Version.leb a b = true) (hbc : Version.leb b c = true) :
    Version.leb a c = true := by
  rw [Version.leb_iff] at *
  omega

theorem digitVal_digitChar {n : Nat} (h : n < 10) :
    digitVal (digitChar n) = some n := by
  interval_cases n <;> rfl

theorem parseSuffix_canonicalSuffix (s : Stability) (year month day : Nat) :
    parseSuffix year month day (canonicalSuffix s) =
      some ⟨⟨year, month, day⟩, s⟩ := by
  cases s <;> rfl

/-- Parsing inverts canonical rendering on any version whose date lies in
the grammar's range. -/
theorem parseVersionChars_canonicalChars (v : Version) (h : v.date.valid) :
    parseVersionChars (canonicalChars v) = some v := by
  obtain ⟨⟨y, m, d⟩, s⟩ := v
  have hv : y ≤ 9999 ∧ 1 ≤ m ∧ m ≤ 12 ∧ 1 ≤ d ∧ d ≤ 31 := h
  obtain ⟨hy, hm1, hm2, hd1, hd2⟩ := hv
  simp only [canonicalChars, canonicalDateChars, List.cons_append,
    List.nil_append]
  rw [parseVersionChars]
  rw [digitVal_digitChar (Nat.mod_lt _ (by omega)),
      digitVal_digitChar (Nat.mod_lt _ (by omega)),
      digitVal_digitChar (Nat.mod_lt _ (by omega)),
      digitVal_digitChar (Nat.mod_lt _ (by omega)),
      digitVal_digitChar (Nat.mod_lt _ (by omega)),
      digitVal_digitChar (Nat.mod_lt _ (by omega)),
      digitVal_digitChar (Nat.mod_lt _ (by omega)),
      digitVal_digitChar (Nat.mod_lt _ (by omega))]
  simp only [Option.bind_eq_bind, Option.some_bind]
  rw [if_pos]
  · rw [parseSuffix_canonicalSuffix]
    simp only [Option.some.injEq, Version.mk.injEq, Date.mk.injEq, and_true]
    omega
  · exact ⟨by omega, by omega, by omega, by omega⟩

theorem Version.ltb_imp_leb {a b : Version} (h : Version.ltb a b = true) :
    Version.leb a b = true := by
  rw [Version.leb_iff]
  rw [Version.ltb_iff] at h
  omega

theorem maxVersionStep_ne_none (acc : Option Version) (v : Version) :
    maxVersionStep acc v ≠ none := by
  cases acc <;> simp only [maxVersionStep]
  · exact Option.some_ne_none v
  · split <;> exact Option.some_ne_none _

theorem foldl_maxVersionStep_none_iff (l : List Version) :
    ∀ acc, l.foldl maxVersionStep acc = none ↔ acc = none ∧ l = [] := by
  induction l with
  | nil => simp
  | cons x xs ih =>
    intro acc
    simp only [List.foldl_cons, ih, List.cons_ne_nil, and_false, iff_false]
    intro ⟨hstep, _⟩
    exact maxVersionStep_ne_none acc x hstep

theorem foldl_maxVersionStep_spec (l : List Version) :
    ∀ acc v, l.foldl maxVersionStep acc = some v →
      (acc = some v ∨ v ∈ l) ∧
        (∀ w, acc = some w → Version.leb w v = true) ∧
        (∀ u ∈ l, Version.leb u v = true) := by
  induction l with
  | nil =>
    intro acc v h
    simp only [List.foldl_nil] at h
    refine ⟨Or.inl h, fun w hw => ?_, by simp⟩
    rw [hw] at h
    cases h
    simp [Version.leb]
  | cons x xs ih =>
    intro acc v h
    simp only [List.foldl_cons] at h
    obtain ⟨hmem, hacc, hall⟩ := ih (maxVersionStep acc x) v h
    have hx : Version.leb x v = true := by
      cases acc with
      | none =>
        exact hacc x rfl
      | some w =>
        simp only [maxVersionStep] at hacc
        by_cases hlt : Version.ltb w x = true
        · exact hacc x (by rw [if_pos hlt])
        · have hwv := hacc w (by rw [if_neg hlt])
          have hxw : Version.leb x w = true := by
            rw [← Version.ltb_eq_false_iff]
            exact Bool.not_eq_true _ ▸ hlt
          exact Version.leb_trans hxw hwv
    refine ⟨?_, ?_, ?_⟩
    · rcases hmem with hmem | hmem
      · cases acc with
        | none =>
          simp only [maxVersionStep] at hmem
          cases hmem
          exact Or.inr (List.mem_cons_self _ _)
        | some w =>
          simp only [maxVersionStep] at hmem
          by_cases hlt : Version.ltb w x = true
          · rw [if_pos hlt] at hmem
            cases hmem
            exact Or.inr (List.mem_cons_self _ _)
          · rw [if_neg hlt] at hmem
            exact Or.inl hmem
      · exact Or.inr (List.mem_cons_of_mem _ hmem)
    · intro w hw
      subst hw
      simp only [maxVersionStep] at hacc
      by_cases hlt : Version.ltb w x = true
      · have hxv := hacc x (by rw [if_pos hlt])
        exact Version.leb_trans (Version.ltb_imp_leb hlt) hxv
      · exact hacc w (by rw [if_neg hlt])
    · intro u hu
      rcases List.mem_cons.mp hu with rfl | hu
      · exact hx
      · exact hall u hu

/-- A resolved version is one of the filtered candidates, and every
candidate is at most the resolved one in the (date, stability) order. -/
theorem resolve_spec {q : Version} {available : List Version} {v : Version}
    (h : resolve q available = some v) :
    v ∈ available ∧ versionMatchb q v = true ∧
      ∀ u ∈ available, versionMatchb q u = true → Version.leb u v = true := by
  obtain ⟨hmem, _, hall⟩ := foldl_maxVersionStep_spec _ none v h
  rcases hmem with hmem | hmem
  · cases hmem
  · obtain ⟨hv, hvm⟩ := List.mem_filter.mp hmem
    exact ⟨hv, hvm, fun u hu hum => hall u (List.mem_filter.mpr ⟨hu, hum⟩)⟩

/-- The resolver fails exactly when no available version passes the
filter. -/
theorem resolve_eq_none_iff (q : Version) (available : List Version) :
    resolve q available = none ↔
      ∀ v ∈ available, versionMatchb q v = false := by
  rw [resolve, foldl_maxVersionStep_none_iff]
  simp [List.filter_eq_nil_iff]

/-- The resolver's stability filter coincides with the spec's ladder. -/
theorem stability_filter_iff_ladder (q v : Stability) :
    q.idx ≤ v.idx ↔ ladderMatches q v := by
  cases q <;> cases v <;> simp [ladderMatches, Stability.idx]

/-- Claim C1: `Resolve` (and `ResourceVersions.At`) filters the available
versions to those `V` with `V.Date ≤ q.Date` and `V.Stability ≥
q.Stability` and returns the maximum candidate in the (Date, Stability)
order; on the `hello-world` resource, query `2021-07-01` resolves to
`2021-06-07`, `2021-07-01~beta` and `2021-07-01~experimental` to
`2021-06-13~beta`, and `2021-06-08~experimental` to `2021-06-07`. -/
theorem resolve_filters_and_picks_max :
    (∀ (q : Version) (available : List Version) (v : Version),
        resolve q available = some v →
          v ∈ available ∧ Date.leb v.date q.date = true ∧
            q.stability.idx ≤ v.stability.idx ∧
            ∀ u ∈ available, Date.leb u.date q.date = true →
              q.stability.idx ≤ u.stability.idx → Version.leb u v = true) ∧
      resourceVersionsAt helloWorldVersions ⟨⟨2021, 7, 1⟩, .ga⟩ =
        .ok ⟨⟨2021, 6, 7⟩, .ga⟩ ∧
      resourceVersionsAt helloWorldVersions ⟨⟨2021, 7, 1⟩, .beta⟩ =
        .ok ⟨⟨2021, 6, 13⟩, .beta⟩ ∧
      resourceVersionsAt helloWorldVersions ⟨⟨2021, 7, 1⟩, .experimental⟩ =
        .ok ⟨⟨2021, 6, 13⟩, .beta⟩ ∧
      resourceVersionsAt helloWorldVersions ⟨⟨2021, 6, 8⟩, .experimental⟩ =
        .ok ⟨⟨2021, 6, 7⟩, .ga⟩ := by
  refine ⟨fun q available v h => ?_, rfl, rfl, rfl, rfl⟩
  obtain ⟨hv, hvm, hall⟩ := resolve_spec h
  simp only [versionMatchb, Bool.and_eq_true, decide_eq_true_eq] at hvm
  exact ⟨hv, hvm.1, hvm.2, fun u hu h1 h2 => hall u hu (by
    simp only [versionMatchb, Bool.and_eq_true, decide_eq_true_eq]
    exact ⟨h1, h2⟩)⟩

/-- Witness for C1: the generic part applied to the `hello-world` timeline
at query `2021-07-01`. -/
theorem resolve_filters_and_picks_max_witness :
    (⟨⟨2021, 6, 7⟩, .ga⟩ : Version) ∈ helloWorldVersions :=
  (resolve_filters_and_picks_max.1 ⟨⟨2021, 7, 1⟩, .ga⟩ helloWorldVersions
    ⟨⟨2021, 6, 7⟩, .ga⟩ (by decide)).1

/-- Claim C2: `ResourceVersions.At(q)` fails with the sentinel error
`no matching version` exactly when no available version passes the
stability-ladder filter with `Date ≤ q.Date`; the resolver's stability
filter is exactly the ladder (ga matches only ga, beta matches beta or ga,
experimental matches any released stability); on the `projects` resource
(only `2021-06-04~experimental`), an experimental query succeeds and the
beta and ga queries fail with the sentinel. -/
theorem resourceVersionsAt_error_iff :
    (∀ (versions : List Version) (q : Version),
        resourceVersionsAt versions q = .error errNoMatchingVersion ↔
          ∀ v ∈ versions, ¬(Date.leb v.date q.date = true ∧
            ladderMatches q.stability v.stability)) ∧
      resourceVersionsAt projectsVersions ⟨⟨2021, 7, 1⟩, .experimental⟩ =
        .ok ⟨⟨2021, 6, 4⟩, .experimental⟩ ∧
      resourceVersionsAt projectsVersions ⟨⟨2021, 7, 1⟩, .beta⟩ =
        .error errNoMatchingVersion ∧
      resourceVersionsAt projectsVersions ⟨⟨2021, 7, 1⟩, .ga⟩ =
        .error errNoMatchingVersion := by
  refine ⟨fun versions q => ?_, rfl, rfl, rfl⟩
  have hmatch : ∀ v : Version, versionMatchb q v = false ↔
      ¬(Date.leb v.date q.date = true ∧ ladderMatches q.stability v.stability) := by
    intro v
    rw [← Bool.not_eq_true, versionMatchb, Bool.and_eq_true, decide_eq_true_eq,
      stability_filter_iff_ladder]
  constructor
  · intro h
    rw [resourceVersionsAt] at h
    intro v hv
    rw [← hmatch v]
    revert v hv
    rw [← resolve_eq_none_iff q versions]
    rcases hr : resolve q versions with _ | w
    · rfl
    · rw [hr] at h
      cases h
  · intro h
    rw [resourceVersionsAt]
    rw [show resolve q versions = none from
      (resolve_eq_none_iff q versions).mpr fun v hv => (hmatch v).mpr (h v hv)]

/-- Witness for C2: the generic part applied to the `projects` resource at a
ga query, together with the fixture failure it predicts. -/
theorem resourceVersionsAt_error_iff_witness :
    ∀ v ∈ projectsVersions,
      ¬(Date.leb v.date (⟨2021, 7, 1⟩ : Date) = true ∧
        ladderMatches Stability.ga v.stability) :=
  (resourceVersionsAt_error_iff.1 projectsVersions ⟨⟨2021, 7, 1⟩, .ga⟩).mp rfl

/-- Claim C3: for every version `v` in the grammar's date range, parsing the
canonical string form of `v` yields `v` again; the canonical form of a ga
version is the bare date (the `~ga` suffix is elided); in particular the
version parsed from `2022-01-16~ga` renders as `2022-01-16`. -/
theorem parseVersion_canonical_roundtrip (v : Version) (h : v.date.valid) :
    parseVersion (canonicalString v) = some v ∧
      (parseVersion "2022-01-16~ga").map canonicalString =
        some "2022-01-16" :=
  ⟨parseVersionChars_canonicalChars v h, by decide⟩

/-- Witness for C3: the round trip at `2021-06-13~beta`. -/
theorem parseVersion_canonical_roundtrip_witness :
    parseVersion (canonicalString ⟨⟨2021, 6, 13⟩, .beta⟩) =
      some ⟨⟨2021, 6, 13⟩, .beta⟩ :=
  (parseVersion_canonical_roundtrip ⟨⟨2021, 6, 13⟩, .beta⟩
    ⟨by decide, by decide, by decide, by decide, by decide⟩).1

theorem lookupHeader_append_left {l1 l2 : List (String × Header)} {n : String}
    {h : Header} (hl : lookupHeader l1 n = some h) :
    lookupHeader (l1 ++ l2) n = some h := by
  induction l1 with
  | nil => cases hl
  | cons p rest ih =>
    rw [List.cons_append, lookupHeader]
    rw [lookupHeader] at hl
    by_cases hp : p.1 = n
    · rwa [if_pos hp] at hl ⊢
    · rw [if_neg hp] at hl ⊢
      exact ih hl

/-- An expanded response never loses or changes an explicitly present
header. -/
theorem expandResponse_preserves_headers {r : Response} {n : String}
    {h : Header} (hl : lookupHeader r.headers n = some h) :
    lookupHeader (expandResponse r).headers n = some h := by
  rw [expandResponse]
  cases r.includeHeadersExt with
  | none => exact hl
  | some m => exact lookupHeader_append_left hl

/-- A response processed by the expander carries no extension. -/
theorem expandResponse_ext_none (r : Response) :
    (expandResponse r).includeHeadersExt = none := by
  rw [expandResponse]
  cases hr : r.includeHeadersExt with
  | none => exact hr
  | some m => rfl

/-- Claim C4: on the S3 document, `IncludeHeaders` leaves the response with
exactly the three referenced headers, each string-typed, and no
`x-snyk-include-headers` extension; in general the extension is absent
everywhere after expansion and no explicitly present header entry is
overwritten. -/
theorem includeHeaders_s3 :
    includeHeaders s3Document = [⟨s3IncludedHeaders, none⟩] ∧
      (∀ p ∈ s3IncludedHeaders, p.2.schemaType = "string") ∧
      (∀ doc : List Response, ∀ r ∈ includeHeaders doc,
        r.includeHeadersExt = none) ∧
      (∀ (r : Response) (n : String) (h : Header),
        lookupHeader r.headers n = some h →
        lookupHeader (expandResponse r).headers n = some h) := by
  refine ⟨rfl, by decide, fun doc r hr => ?_,
    fun r n h hl => expandResponse_preserves_headers hl⟩
  obtain ⟨r0, _, rfl⟩ := List.mem_map.mp hr
  exact expandResponse_ext_none r0

/-- Witness for C4: header preservation applied to a response that
explicitly defines one of the included header names. -/
theorem includeHeaders_s3_witness :
    lookupHeader (expandResponse
      ⟨[("snyk-request-id", ⟨"uuid"⟩)], some s3IncludedHeaders⟩).headers
      "snyk-request-id" = some ⟨"uuid"⟩ :=
  includeHeaders_s3.2.2.2 ⟨[("snyk-request-id", ⟨"uuid"⟩)],
    some s3IncludedHeaders⟩ "snyk-request-id" ⟨"uuid"⟩ rfl

theorem lookupPath_append_left {l1 l2 : List (String × String)} {n v : String}
    (hl : lookupPath l1 n = some v) :
    lookupPath (l1 ++ l2) n = some v := by
  induction l1 with
  | nil => cases hl
  | cons p rest ih =>
    rw [List.cons_append, lookupPath]
    rw [lookupPath] at hl
    by_cases hp : p.1 = n
    · rwa [if_pos hp] at hl ⊢
    · rw [if_neg hp] at hl ⊢
      exact ih hl

theorem lookupPath_append_of_none {l1 l2 : List (String × String)} {n : String}
    (hl : lookupPath l1 n = none) :
    lookupPath (l1 ++ l2) n = lookupPath l2 n := by
  induction l1 with
  | nil => rfl
  | cons p rest ih =>
    rw [List.cons_append, lookupPath]
    rw [lookupPath] at hl
    by_cases hp : p.1 = n
    · rw [if_pos hp] at hl
      cases hl
    · rw [if_neg hp] at hl
      rw [if_neg hp]
      exact ih hl

/-- Case analysis on a successful path-entry insert. -/
theorem insertPathEntry_ok_cases {replace : Bool} {t r : List (String × String)}
    {e : String × String} (h : insertPathEntry replace t e = .ok r) :
    (lookupPath t e.1 = none ∧ r = t ++ [e]) ∨
      (lookupPath t e.1 = some e.2 ∧ r = t) ∨
      (∃ c, lookupPath t e.1 = some c ∧ c ≠ e.2 ∧ replace = true ∧
        r = setPath t e.1 e.2) := by
  rw [insertPathEntry] at h
  split at h
  next hl =>
    cases h
    exact Or.inl ⟨hl, rfl⟩
  next c hl =>
    split at h
    next hc =>
      cases h
      subst hc
      exact Or.inr (Or.inl ⟨hl, rfl⟩)
    next hc =>
      split at h
      next hrep =>
        cases h
        exact Or.inr (Or.inr ⟨c, hl, hc, hrep, rfl⟩)
      next hrep =>
        cases h

/-- Inserting an entry already present with an identical value is a
no-op. -/
theorem insertPathEntry_of_present (replace : Bool)
    {t : List (String × String)} {e : String × String}
    (h : lookupPath t e.1 = some e.2) :
    insertPathEntry replace t e = .ok t := by
  rw [insertPathEntry, h]
  simp

/-- A successful non-replacing path merge keeps every target entry and makes
every source entry visible with the source's value. -/
theorem mergePathList_false_spec :
    ∀ (s t r : List (String × String)), mergePathList false t s = .ok r →
      (∀ k v, lookupPath t k = some v → lookupPath r k = some v) ∧
        (∀ e ∈ s, lookupPath r e.1 = some e.2) := by
  intro s
  induction s with
  | nil =>
    intro t r h
    cases h
    exact ⟨fun k v hv => hv, by simp⟩
  | cons e rest ih =>
    intro t r h
    rw [mergePathList] at h
    split at h
    next t' heq =>
      rcases insertPathEntry_ok_cases heq with ⟨hl, ht'⟩ | ⟨hl, ht'⟩ |
        ⟨c, _, _, hrep, _⟩ <;>
        try rw [ht'] at h
      · obtain ⟨hkeep, hsrc⟩ := ih (t ++ [e]) r h
        refine ⟨fun k v hv => hkeep k v (lookupPath_append_left hv),
          fun u hu => ?_⟩
        rcases List.mem_cons.mp hu with rfl | hu
        · refine hkeep u.1 u.2 ?_
          rw [lookupPath_append_of_none hl, lookupPath, if_pos rfl]
        · exact hsrc u hu
      · obtain ⟨hkeep, hsrc⟩ := ih t r h
        refine ⟨hkeep, fun u hu => ?_⟩
        rcases List.mem_cons.mp hu with rfl | hu
        · exact hkeep u.1 u.2 hl
        · exact hsrc u hu
      · cases hrep
    next p heq =>
      cases h

/-- Merging a source whose entries are already present with identical
values changes nothing. -/
theorem mergePathList_false_noop :
    ∀ (s t : List (String × String)),
      (∀ e ∈ s, lookupPath t e.1 = some e.2) →
      mergePathList false t s = .ok t := by
  intro s
  induction s with
  | nil =>
    intro t _
    rfl
  | cons e rest ih =>
    intro t h
    rw [mergePathList, insertPathEntry_of_present false
      (h e (List.mem_cons_self _ _))]
    exact ih t fun u hu => h u (List.mem_cons_of_mem _ hu)

theorem mergeTopLevel_false_idem (a b : Option (List String)) :
    mergeTopLevel false (mergeTopLevel false a b) b = mergeTopLevel false a b := by
  cases a <;> cases b <;> rfl

/-- Claim C8: a successful non-replacing merge is idempotent: repeating
`Merge(·, b, replace=false)` on the already-merged target leaves it
unchanged. -/
theorem mergeDoc_false_idempotent (a b m : Doc)
    (h : mergeDoc a b false = .ok m) :
    mergeDoc m b false = .ok m := by
  rw [mergeDoc] at h
  cases hm : mergePathList false a.paths b.paths with
  | error p =>
    rw [hm] at h
    cases h
  | ok ps =>
    rw [hm] at h
    cases h
    rw [mergeDoc]
    rw [mergePathList_false_noop b.paths ps
      (mergePathList_false_spec b.paths a.paths ps hm).2]
    rw [mergeTopLevel_false_idem]

/-- Witness for C8: idempotence after merging a one-path document into an
empty one. -/
theorem mergeDoc_false_idempotent_witness :
    mergeDoc ⟨[("/test", "getTest")], some ["/api/v3"]⟩
      ⟨[("/test", "getTest")], none⟩ false =
      .ok ⟨[("/test", "getTest")], some ["/api/v3"]⟩ :=
  mergeDoc_false_idempotent ⟨[], some ["/api/v3"]⟩ ⟨[("/test", "getTest")], none⟩
    ⟨[("/test", "getTest")], some ["/api/v3"]⟩ rfl

/-- The replacing merge never fails. -/
theorem mergePathList_true_ok :
    ∀ (s t : List (String × String)), ∃ r, mergePathList true t s = .ok r := by
  intro s
  induction s with
  | nil =>
    intro t
    exact ⟨t, rfl⟩
  | cons e rest ih =>
    intro t
    rw [mergePathList]
    cases hins : insertPathEntry true t e with
    | ok t' =>
      exact ih t'
    | error p =>
      rw [insertPathEntry] at hins
      split at hins
      next => cases hins
      next c hl =>
        split at hins
        next => cases hins
        next =>
          split at hins
          next => cases hins
          next hrep => exact absurd rfl hrep

/-- Claim C7: `Merge` with `replace = true` overwrites top-level fields the
target also defines: whenever both documents carry a `servers` list the
merged document keeps the overlay's; in particular merging servers
`[https://example.com/api/v3]` over `[/api/v3]` yields the overlay's
value. -/
theorem mergeDoc_replace_overwrites_servers :
    (∀ (base overlay : Doc) (bs os : List String) (m : Doc),
        base.servers = some bs → overlay.servers = some os →
        mergeDoc base overlay true = .ok m → m.servers = some os) ∧
      mergeDoc ⟨[], some ["/api/v3"]⟩ ⟨[], some ["https://example.com/api/v3"]⟩
        true = .ok ⟨[], some ["https://example.com/api/v3"]⟩ := by
  refine ⟨fun base overlay bs os m hb ho h => ?_, rfl⟩
  rw [mergeDoc] at h
  cases hm : mergePathList true base.paths overlay.paths with
  | error p =>
    rw [hm] at h
    cases h
  | ok ps =>
    rw [hm] at h
    cases h
    rw [hb, ho]
    rfl

/-- Witness for C7: the generic overwrite applied to the S6 fixture. -/
theorem mergeDoc_replace_overwrites_servers_witness :
    (Doc.mk [] (some ["https://example.com/api/v3"])).servers =
      some ["https://example.com/api/v3"] :=
  mergeDoc_replace_overwrites_servers.1 ⟨[], some ["/api/v3"]⟩
    ⟨[], some ["https://example.com/api/v3"]⟩ ["/api/v3"]
    ["https://example.com/api/v3"] ⟨[], some ["https://example.com/api/v3"]⟩
    rfl rfl mergeDoc_replace_overwrites_servers.2

/-- Claim C5: collating S5's two services yields three versions in sorted
order; the aggregate at `2022-04-01` holds both `/test` and `/example`,
while the aggregate at `2022-02-01~beta` holds only `/test`. -/
theorem collate_two_services :
    collate s5Services = .ok (
      [⟨⟨2022, 2, 1⟩, .beta⟩, ⟨⟨2022, 3, 1⟩, .ga⟩, ⟨⟨2022, 4, 1⟩, .ga⟩],
      [(⟨⟨2022, 2, 1⟩, .beta⟩, ⟨[("/test", "getTest")], none⟩),
       (⟨⟨2022, 3, 1⟩, .ga⟩, ⟨[("/test", "getTest")], none⟩),
       (⟨⟨2022, 4, 1⟩, .ga⟩,
        ⟨[("/test", "getTest"), ("/example", "postExample")], none⟩)]) := rfl

/-- Claim C6: two sources contributing the same path with different operation
bodies at the same version fail with a conflict naming the JSON pointer and
the contributing sources: generically, merging a differing second
contribution errors with the escaped pointer and both source names; two
resources both defining `/foo` differently make `SpecVersions.At` fail
naming `#/paths/~1foo` and both resources; and two conflicting services
make `Collate` fail with an error naming `#/paths` and the conflicting
path. -/
theorem conflict_names_pointer_and_sources :
    (∀ (c1 c2 src1 src2 p : String), c1 ≠ c2 →
        insertDoc src2 [⟨p, c1, src1⟩] [(p, c2)] =
          .error ⟨"#/paths/" ++ escapePointer p, [src1, src2]⟩) ∧
      specVersionsAt
        [⟨"resource-a", [(⟨⟨2021, 6, 15⟩, .ga⟩, ⟨[("/foo", "opA")], none⟩)]⟩,
         ⟨"resource-b", [(⟨⟨2021, 6, 15⟩, .ga⟩, ⟨[("/foo", "opB")], none⟩)]⟩]
        ⟨⟨2021, 6, 15⟩, .ga⟩ =
        .error (.conflict ⟨"#/paths/~1foo", ["resource-a", "resource-b"]⟩) ∧
      collate conflictServices =
        .error (collateConflictMessage "/examples/hello-world") := by
  refine ⟨fun c1 c2 src1 src2 p h => ?_, rfl, rfl⟩
  simp [insertDoc, insertEntry, lookupEntry, h]

/-- Witness for C6: the generic conflict applied to two concrete differing
operation bodies. -/
theorem conflict_names_pointer_and_sources_witness :
    insertDoc "resource-b" [⟨"/foo", "opA", "resource-a"⟩] [("/foo", "opB")] =
      .error ⟨"#/paths/~1foo", ["resource-a", "resource-b"]⟩ :=
  conflict_names_pointer_and_sources.1 "opA" "opB" "resource-a" "resource-b"
    "/foo" (by decide)

theorem buildWrites_cons_noMatch {render : Doc → String}
    {toYaml : String → String} {rs : List ResourceV} {overlays : List Doc}
    {out : String} {v : Version} {rest : List Version}
    (h : specVersionsAt rs v = .error .noMatchingVersion) :
    buildWrites render toYaml rs overlays out (v :: rest) =
      buildWrites render toYaml rs overlays out rest := by
  rw [buildWrites, h]

theorem buildWrites_cons_conflict {render : Doc → String}
    {toYaml : String → String} {rs : List ResourceV} {overlays : List Doc}
    {out : String} {v : Version} {rest : List Version} {c : ConflictError}
    (h : specVersionsAt rs v = .error (.conflict c)) :
    buildWrites render toYaml rs overlays out (v :: rest) = [] := by
  rw [buildWrites, h]

theorem buildWrites_cons_ok {render : Doc → String}
    {toYaml : String → String} {rs : List ResourceV} {overlays : List Doc}
    {out : String} {v : Version} {rest : List Version}
    {table : List PathEntry} (h : specVersionsAt rs v = .ok table) :
    buildWrites render toYaml rs overlays out (v :: rest) =
      (out ++ "/" ++ canonicalString v ++ "/spec.json",
        render (applyOverlays overlays
          ⟨table.map fun e => (e.path, e.content), none⟩)) ::
      (out ++ "/" ++ canonicalString v ++ "/spec.yaml",
        withGeneratedComment (toYaml (render (applyOverlays overlays
          ⟨table.map fun e => (e.path, e.content), none⟩)))) ::
      buildWrites render toYaml rs overlays out rest := by
  rw [buildWrites, h]

/-- Every write of the build loop is a `spec.json` or a comment-prefixed
`spec.yaml`, and its version directory receives both files. -/
theorem buildWrites_pairing (render : Doc → String) (toYaml : String → String)
    (rs : List ResourceV) (overlays : List Doc) (out : String) :
    ∀ (steps : List Version) (p c : String),
      (p, c) ∈ buildWrites render toYaml rs overlays out steps →
      ∃ dir doc,
        ((p = dir ++ "/spec.json" ∧ c = render doc) ∨
          (p = dir ++ "/spec.yaml" ∧
            c = withGeneratedComment (toYaml (render doc)))) ∧
        (dir ++ "/spec.json", render doc) ∈
          buildWrites render toYaml rs overlays out steps ∧
        (dir ++ "/spec.yaml", withGeneratedComment (toYaml (render doc))) ∈
          buildWrites render toYaml rs overlays out steps := by
  intro steps
  induction steps with
  | nil =>
    intro p c h
    cases h
  | cons v rest ih =>
    intro p c h
    cases hv : specVersionsAt rs v with
    | error e =>
      cases e with
      | noMatchingVersion =>
        rw [buildWrites_cons_noMatch hv] at h
        obtain ⟨dir, doc, hpc, hj, hy⟩ := ih p c h
        exact ⟨dir, doc, hpc, by rw [buildWrites_cons_noMatch hv]; exact hj,
          by rw [buildWrites_cons_noMatch hv]; exact hy⟩
      | conflict c0 =>
        rw [buildWrites_cons_conflict hv] at h
        cases h
    | ok table =>
      rw [buildWrites_cons_ok hv] at h ⊢
      set doc := applyOverlays overlays
        ⟨table.map fun e => (e.path, e.content), none⟩ with hdoc
      set dir := out ++ "/" ++ canonicalString v with hdir
      rcases List.mem_cons.mp h with hh | h2
      · refine ⟨dir, doc, Or.inl ?_, List.mem_cons_self _ _,
          List.mem_cons_of_mem _ (List.mem_cons_self _ _)⟩
        exact ⟨congrArg Prod.fst hh, congrArg Prod.snd hh⟩
      · rcases List.mem_cons.mp h2 with hh | h3
        · refine ⟨dir, doc, Or.inr ?_, List.mem_cons_self _ _,
            List.mem_cons_of_mem _ (List.mem_cons_self _ _)⟩
          exact ⟨congrArg Prod.fst hh, congrArg Prod.snd hh⟩
        · obtain ⟨dir', doc', hpc, hj, hy⟩ := ih p c h3
          exact ⟨dir', doc', hpc,
            List.mem_cons_of_mem _ (List.mem_cons_of_mem _ hj),
            List.mem_cons_of_mem _ (List.mem_cons_of_mem _ hy)⟩

/-- Claim C9: every compiled `spec.yaml` is the YAML rendering of the
document prefixed with exactly the single comment line `# OpenAPI spec
generated by vervet, DO NOT EDIT` and a newline, the original YAML bytes
following unmodified; and every emitted version directory receives both
`spec.json` and `spec.yaml`. -/
theorem build_emits_json_and_prefixed_yaml :
    (∀ buf : String, withGeneratedComment buf =
        "# OpenAPI spec generated by vervet, DO NOT EDIT\n" ++ buf) ∧
      (∀ (render : Doc → String) (toYaml : String → String)
        (rs : List ResourceV) (overlays : List Doc) (out : String)
        (steps : List Version) (p c : String),
        (p, c) ∈ buildWrites render toYaml rs overlays out steps →
        ∃ dir doc,
          ((p = dir ++ "/spec.json" ∧ c = render doc) ∨
            (p = dir ++ "/spec.yaml" ∧
              c = withGeneratedComment (toYaml (render doc)))) ∧
          (dir ++ "/spec.json", render doc) ∈
            buildWrites render toYaml rs overlays out steps ∧
          (dir ++ "/spec.yaml", withGeneratedComment (toYaml (render doc))) ∈
            buildWrites render toYaml rs overlays out steps) :=
  ⟨fun _ => rfl, fun render toYaml rs overlays out steps p c h =>
    buildWrites_pairing render toYaml rs overlays out steps p c h⟩

/-- Witness for C9: the pairing applied to the json file the mock build
writes for `2021-06-01`. -/
theorem build_emits_json_and_prefixed_yaml_witness :
    ∃ dir doc,
      (("out/2021-06-01/spec.json" = dir ++ "/spec.json" ∧
          "J" = mockRender doc) ∨
        ("out/2021-06-01/spec.json" = dir ++ "/spec.yaml" ∧
          "J" = withGeneratedComment (mockToYaml (mockRender doc)))) ∧
      (dir ++ "/spec.json", mockRender doc) ∈
        buildWrites mockRender mockToYaml mockResources [] "out"
          [⟨⟨2021, 6, 1⟩, .ga⟩] ∧
      (dir ++ "/spec.yaml", withGeneratedComment (mockToYaml (mockRender doc))) ∈
        buildWrites mockRender mockToYaml mockResources [] "out"
          [⟨⟨2021, 6, 1⟩, .ga⟩] :=
  build_emits_json_and_prefixed_yaml.2 mockRender mockToYaml mockResources []
    "out" [⟨⟨2021, 6, 1⟩, .ga⟩] "out/2021-06-01/spec.json" "J" (by decide)

/-- Claim C10: `Compiler.Build` removes the whole output directory
recursively and recreates it before loading or compiling anything: when the
load fails the resulting file system is exactly the cleared-and-recreated
one with the load error returned; and in every run a pre-existing file
under the output path survives only as a write of this very run — a
failure after the removal leaves the previous output removed and not
restored. -/
theorem build_clears_output_first :
    ∀ (render : Doc → String) (toYaml : String → String) (api : ApiConfig)
      (fs fs' : FS) (r : Except String Unit),
      api.outputPath ≠ "" →
      build render toYaml api fs = (fs', r) →
      (∀ e, api.loadResult = .error e →
        fs' = mkdirAll (removeAll fs api.outputPath) api.outputPath ∧
          r = .error e) ∧
      (∀ p c, (p, c) ∈ fs.files → isPathPrefix api.outputPath p = true →
        (p, c) ∈ fs'.files →
        ∃ rs, api.loadResult = .ok rs ∧
          (p, c) ∈ buildWrites render toYaml rs api.overlays api.outputPath
            (buildStepsOf rs)) := by
  intro render toYaml api fs fs' r hout hb
  rw [build, if_neg hout] at hb
  cases hl : api.loadResult with
  | error e =>
    rw [hl] at hb
    have hb' : (mkdirAll (removeAll fs api.outputPath) api.outputPath,
        (Except.error e : Except String Unit)) = (fs', r) := hb
    injection hb' with hfs hr
    subst hfs
    subst hr
    constructor
    · intro e' he'
      injection he' with he''
      subst he''
      exact ⟨rfl, rfl⟩
    · intro p c hpfs hpre hpfs'
      simp only [mkdirAll, removeAll] at hpfs'
      obtain ⟨_, hpred⟩ := List.mem_filter.mp hpfs'
      rw [hpre] at hpred
      cases hpred
  | ok rs =>
    rw [hl] at hb
    have hb' : ((⟨(mkdirAll (removeAll fs api.outputPath) api.outputPath).files ++
          buildWrites render toYaml rs api.overlays api.outputPath
            (buildStepsOf rs),
        (mkdirAll (removeAll fs api.outputPath) api.outputPath).dirs ++
          buildDirs rs api.outputPath (buildStepsOf rs)⟩ : FS),
        buildResult rs (buildStepsOf rs)) = (fs', r) := hb
    injection hb' with hfs hr
    subst hfs
    subst hr
    constructor
    · intro e he
      cases he
    · intro p c hpfs hpre hpfs'
      simp only [mkdirAll, removeAll] at hpfs'
      rcases List.mem_append.mp hpfs' with h1 | h2
      · obtain ⟨_, hpred⟩ := List.mem_filter.mp h1
        rw [hpre] at hpred
        cases hpred
      · exact ⟨rs, rfl, h2⟩

/-- Witness for C10: a failing load on a file system holding stale output
ends with the output directory cleared and recreated and the load error
returned. -/
theorem build_clears_output_first_witness :
    (⟨[], ["out"]⟩ : FS) = mkdirAll (removeAll staleOutputFs "out") "out" ∧
      (Except.error "load failed" : Except String Unit) =
        .error "load failed" :=
  (build_clears_output_first mockRender mockToYaml failingLoadApi
    staleOutputFs ⟨[], ["out"]⟩ (.error "load failed") (by decide) (by rfl)).1
    "load failed" rfl

end Vervet

